import Mathlib

/-!
# personal-github-repo-manager

A shallow embedding of the two source files of the repository:

* `ghrepos/gh_api_facade.go`: the gateway (`Repo.Delete`, `Repo.update` and its
  four callers, `Repo.Open`, `GHAPIFacade.GetRepos`);
* `main.go`: the session (`model`, `model.Update`, `model.View`, the command
  constructors `ghFetchRepos`, `ghPerform`, `ghDelete`).

Go values are embedded as follows.  A Go `string` is a Lean `String`, a Go
`int` is an `Int`, a Go `error` is its message (`Option String`, `none` for
`nil`).  A call that ends the process (`log.Fatal`, `os.Exit`) or a runtime
panic is an explicit outcome.  Everything outside the repository that the code
calls (the HTTP transport, `encoding/json`, `sort.Slice`, the list and spinner
widgets) is a parameter.
-/

namespace GhRepoManager

/-! ## Gateway: `ghrepos/gh_api_facade.go` -/

/-- The page size sent with the list request. -/
def GH_REPOS_PAGE_SIZE : Nat := 120

/-- The gateway configuration (`GHAPIFacade`); the transport handle `HttpClient`
is the `HttpEnv` parameter of the operations. -/
structure GHAPIFacade where
  BaseURL : String
  GHAPIKey : String
  GHOwner : String
deriving DecidableEq, Repr

/-- One repository record (`Repo`): five JSON-mapped fields and the facade that
fetched it. -/
structure Repo where
  Visibility : String
  Fork : Bool
  Name : String
  Archived : Bool
  CloneUrl : String
  ghApiFacade : GHAPIFacade
deriving DecidableEq, Repr

/-- A JSON object as `json.Unmarshal` sees it for a `Repo`: for each mapped key
the value the object carries, or `none` when the key is absent (or `null`). -/
structure RepoJson where
  visibility : Option String
  fork : Option Bool
  name : Option String
  archived : Option Bool
  clone_url : Option String
deriving DecidableEq, Repr

/-- What `json.Unmarshal(body, &repo)` finds in a body, with `repo` a non-nil
`*Repo`: an error, the literal `null`, or an object. -/
inductive RepoDecode where
  | invalid (e : String)
  | null
  | object (o : RepoJson)
deriving DecidableEq, Repr

/-- A value of the update field map (`map[string]interface{}`): the callers only
ever store a boolean or a string. -/
inductive FieldValue where
  | bool (b : Bool)
  | str (s : String)
deriving DecidableEq, Repr

/-- An outgoing request: method, URL, headers and, for PATCH, the field map
whose JSON encoding is the body. -/
structure Request where
  method : String
  url : String
  header : List (String × String)
  payload : List (String × FieldValue)
deriving DecidableEq, Repr

/-- A response as the code reads it: the status code, the bytes `io.ReadAll`
returns and the error `io.ReadAll` returns with them. -/
structure Response where
  StatusCode : Int
  Body : String
  readErr : Option String
deriving DecidableEq, Repr

/-- The world outside the gateway: `http.NewRequest`, `httputil.DumpRequestOut`,
`HttpClient.Do` and the two uses of `json.Unmarshal`.  An element `none` of a
decoded array is a JSON `null` element (a nil `*Repo`). -/
structure HttpEnv where
  newRequestErr : String → String → Option String
  dumpRequestErr : Request → Option String
  Do : Request → Except String Response
  unmarshalRepo : String → RepoDecode
  unmarshalRepos : String → Except String (List (Option RepoJson))

/-- The result of a call that may end the process or panic instead of
returning. -/
inductive Outcome (α : Type) where
  | ret (a : α)
  | fatal
  | panic
deriving DecidableEq, Repr

/-- The three headers of the DELETE and GET requests. -/
def authHeader (facade : GHAPIFacade) : List (String × String) :=
  [("Authorization", "Bearer " ++ facade.GHAPIKey),
   ("Accept", "application/vnd.github+json"),
   ("X-GitHub-Api-Version", "2022-11-28")]

/-- The URL `https://api.github.com/repos/%s/%s` of a record. -/
def Repo.url (repo : Repo) : String :=
  "https://api.github.com/repos/" ++ repo.ghApiFacade.GHOwner ++ "/" ++ repo.Name

/-- The text of `fmt.Errorf("error: received status code %d, body: %s", ...)`. -/
def statusError (code : Int) (body : String) : String :=
  "error: received status code " ++ toString code ++ ", body: " ++ body

/-- The request `Repo.Delete` builds. -/
def Repo.deleteRequest (repo : Repo) : Request :=
  { method := "DELETE", url := repo.url, header := authHeader repo.ghApiFacade, payload := [] }

/-- The method `Repo.Delete`: `none` is the nil error. -/
def Repo.Delete (env : HttpEnv) (repo : Repo) : Option String :=
  match env.newRequestErr "DELETE" repo.url with
  | some e => some ("failed to create request: " ++ e)
  | none =>
    match env.dumpRequestErr repo.deleteRequest with
    | some e => some ("failed to dump request: " ++ e)
    | none =>
      match env.Do repo.deleteRequest with
      | .error e => some ("request failed: " ++ e)
      | .ok resp =>
        if resp.StatusCode ≠ 204 then
          some (statusError resp.StatusCode resp.Body)
        else
          none

/-- The method `Repo.Open`: the outcome of the external command is logged and
dropped, the error is always nil and the record is not written. -/
def Repo.Open (repo : Repo) : Outcome (Repo × Option String) := .ret (repo, none)

/-- Decoding an object into an existing record: a key the object carries
overwrites the field, an absent key leaves it, the facade is not JSON-mapped. -/
def Repo.decodeInto (repo : Repo) (o : RepoJson) : Repo :=
  { Visibility := o.visibility.getD repo.Visibility,
    Fork := o.fork.getD repo.Fork,
    Name := o.name.getD repo.Name,
    Archived := o.archived.getD repo.Archived,
    CloneUrl := o.clone_url.getD repo.CloneUrl,
    ghApiFacade := repo.ghApiFacade }

/-- The request `Repo.update` builds. -/
def Repo.updateRequest (repo : Repo) (updateFields : List (String × FieldValue)) : Request :=
  { method := "PATCH", url := repo.url,
    header := [("Authorization", "Bearer " ++ repo.ghApiFacade.GHAPIKey),
               ("Accept", "application/vnd.github+json"),
               ("Content-Type", "application/json"),
               ("X-GitHub-Api-Version", "2022-11-28")],
    payload := updateFields }

/-- The method `Repo.update`: the record after the call and the error returned.
`json.Marshal` of a map of booleans and strings does not fail.  A `null` body
sets the local pointer to nil and leaves the record. -/
def Repo.update (env : HttpEnv) (repo : Repo) (updateFields : List (String × FieldValue)) :
    Outcome (Repo × Option String) :=
  match env.newRequestErr "PATCH" repo.url with
  | some e => .ret (repo, some ("failed to create request: " ++ e))
  | none =>
    match env.dumpRequestErr (repo.updateRequest updateFields) with
    | some e => .ret (repo, some ("failed to dump request: " ++ e))
    | none =>
      match env.Do (repo.updateRequest updateFields) with
      | .error e => .ret (repo, some ("request failed: " ++ e))
      | .ok resp =>
        if resp.StatusCode ≠ 200 then
          .ret (repo, some (statusError resp.StatusCode resp.Body))
        else
          match resp.readErr with
          | some _ => .fatal
          | none =>
            match env.unmarshalRepo resp.Body with
            | .invalid _ => .fatal
            | .null => .ret (repo, none)
            | .object o => .ret (repo.decodeInto o, none)

/-- The common tail of `Archive`, `Unarchive`, `MakePublic`, `MakePrivate`. -/
def wrapUpdate (r : Outcome (Repo × Option String)) : Outcome (Repo × Option String) :=
  match r with
  | .ret (repo, some e) => .ret (repo, some ("Failed to update repo: " ++ e))
  | .ret (repo, none) => .ret (repo, none)
  | .fatal => .fatal
  | .panic => .panic

/-- The method `Repo.Archive`. -/
def Repo.Archive (env : HttpEnv) (repo : Repo) : Outcome (Repo × Option String) :=
  wrapUpdate (repo.update env [("archived", .bool true)])

/-- The method `Repo.Unarchive`. -/
def Repo.Unarchive (env : HttpEnv) (repo : Repo) : Outcome (Repo × Option String) :=
  wrapUpdate (repo.update env [("archived", .bool false)])

/-- The method `Repo.MakePublic`. -/
def Repo.MakePublic (env : HttpEnv) (repo : Repo) : Outcome (Repo × Option String) :=
  wrapUpdate (repo.update env [("visibility", .str "public")])

/-- The method `Repo.MakePrivate`. -/
def Repo.MakePrivate (env : HttpEnv) (repo : Repo) : Outcome (Repo × Option String) :=
  wrapUpdate (repo.update env [("visibility", .str "private")])

/-- A fresh record decoded from an array element and attributed to the facade:
absent keys leave Go's zero values. -/
def freshRepo (facade : GHAPIFacade) (o : RepoJson) : Repo :=
  Repo.decodeInto
    { Visibility := "", Fork := false, Name := "", Archived := false, CloneUrl := "",
      ghApiFacade := facade } o

/-- The attribution loop of `GetRepos` over the decoded `[]*Repo`: writing the
facade through a nil element panics. -/
def attributeAll (facade : GHAPIFacade) : List (Option RepoJson) → Option (List Repo)
  | [] => some []
  | none :: _ => none
  | some o :: rest =>
    match attributeAll facade rest with
    | none => none
    | some rs => some (freshRepo facade o :: rs)

/-- The comparison handed to `sort.Slice`: `repos[i].Name < repos[j].Name`.  Go
compares the bytes of the two strings; on the UTF-8 text that `json.Unmarshal`
produces this is the lexicographic order of the characters. -/
def nameLess (a b : Repo) : Bool := decide (a.Name < b.Name)

/-- The request `GetRepos` builds. -/
def GHAPIFacade.listRequest (facade : GHAPIFacade) : Request :=
  { method := "GET",
    url := "https://api.github.com/user/repos?per_page=" ++ toString GH_REPOS_PAGE_SIZE,
    header := authHeader facade, payload := [] }

/-- The method `GHAPIFacade.GetRepos`, over the library sort `sortSlice`.  Every
failure ends the process; the error returned with a list is always nil. -/
def GHAPIFacade.GetRepos (env : HttpEnv)
    (sortSlice : (Repo → Repo → Bool) → List Repo → List Repo)
    (facade : GHAPIFacade) : Outcome (List Repo × Option String) :=
  match env.newRequestErr "GET" "https://api.github.com/user/repos" with
  | some _ => .fatal
  | none =>
    match env.dumpRequestErr facade.listRequest with
    | some _ => .fatal
    | none =>
      match env.Do facade.listRequest with
      | .error _ => .fatal
      | .ok resp =>
        if resp.StatusCode ≠ 200 then
          .fatal
        else
          match resp.readErr with
          | some _ => .fatal
          | none =>
            match env.unmarshalRepos resp.Body with
            | .error _ => .fatal
            | .ok decoded =>
              match attributeAll facade decoded with
              | none => .panic
              | some repos => .ret (sortSlice nameLess repos, none)

/-- The requirement `sort.Slice` puts on its comparison: a strict weak
ordering. -/
def StrictWeakOrder {α : Type} (less : α → α → Bool) : Prop :=
  (∀ a, less a a = false) ∧
  (∀ a b c, less a b = true → less b c = true → less a c = true) ∧
  (∀ a b c, less a b = false → less b c = false → less a c = false)

/-- The contract of `sort.Slice`: for a strict weak ordering the result is a
rearrangement of the input in which no later element is less than an earlier
one. -/
def SortSliceContract {α : Type} (sortSlice : (α → α → Bool) → List α → List α) : Prop :=
  ∀ less xs, StrictWeakOrder less →
    (sortSlice less xs).Perm xs ∧
    (sortSlice less xs).Pairwise (fun a b => less b a = false)

/-- Insertion of one element, as the inner loop of the library's insertion sort
leaves it: before the first element it is less than. -/
def insertLess {α : Type} (less : α → α → Bool) (x : α) : List α → List α
  | [] => [x]
  | y :: ys => if less x y then x :: y :: ys else y :: insertLess less x ys

/-- Insertion sort, the algorithm `sort.Slice` runs on short slices. -/
def insertionSortSlice {α : Type} (less : α → α → Bool) : List α → List α
  | [] => []
  | x :: xs => insertLess less x (insertionSortSlice less xs)

/-! ## Session: `main.go` -/

/-- The list widget of the menu, as far as the session reads and writes it: the
title, the items, the index of the selected item and the width. -/
structure ListModel where
  Title : String
  items : List String
  index : Nat
  width : Int
deriving DecidableEq, Repr

/-- The spinner widget: its current frame. -/
structure SpinnerModel where
  frame : Nat
deriving DecidableEq, Repr

/-- The method `SelectedItem` of the list widget: nil when the index is outside
the items. -/
def ListModel.SelectedItem (l : ListModel) : Option String := l.items[l.index]?

/-- The zero-argument gateway actions handed to `ghPerform`. -/
inductive Action where
  | Open
  | Archive
  | Unarchive
  | MakePublic
  | MakePrivate
deriving DecidableEq, Repr

/-- The messages `Update` receives: the window size, the four results of
gateway commands, a key press (by its `String()`), and any other message. -/
inductive Msg where
  | WindowSizeMsg (Width Height : Int)
  | ghRepoDeletedMsg (s : String)
  | ghReposFetchedMsg (repos : List Repo)
  | ghActionPerformedMsg (s : String)
  | ghErrMsg (e : String)
  | KeyMsg (keypress : String)
  | other (id : Nat)
deriving DecidableEq, Repr

/-- The commands `Update` returns: nil, `tea.Quit`, the three gateway commands
(each with the record its closure holds), or a command of a widget. -/
inductive Cmd where
  | nil
  | Quit
  | ghFetchRepos (facade : GHAPIFacade)
  | ghPerform (action : Action) (repo : Repo) (successMsg : String)
  | ghDelete (repo : Repo)
  | widget (id : Nat)
deriving DecidableEq, Repr

/-- The `Update` methods of the two widgets, which return the new widget and a
command of their own (`none` for nil). -/
structure Widgets where
  listUpdate : ListModel → Msg → ListModel × Option Nat
  spinnerUpdate : SpinnerModel → Msg → SpinnerModel × Option Nat

/-- A widget command as a session command. -/
def widgetCmd : Option Nat → Cmd
  | none => .nil
  | some k => .widget k

/-- The session state (`model`); `err = none` is the nil error. -/
structure model where
  ghFacade : GHAPIFacade
  spinner : SpinnerModel
  list : ListModel
  choice : String
  quitting : Bool
  repos : List Repo
  currentRepoIndex : Int
  err : Option String
  confirmMsg : String
  loading : Bool
deriving DecidableEq, Repr

/-- The Go index expression `repos[i]`: `none` is the out-of-range panic. -/
def index (repos : List Repo) (i : Int) : Option Repo :=
  if 0 ≤ i then repos[i.toNat]? else none

/-- Running an action on a record: the record after the call and the error. -/
def Action.run (env : HttpEnv) : Action → Repo → Outcome (Repo × Option String)
  | .Open, repo => repo.Open
  | .Archive, repo => repo.Archive env
  | .Unarchive, repo => repo.Unarchive env
  | .MakePublic, repo => repo.MakePublic env
  | .MakePrivate, repo => repo.MakePrivate env

/-- The closure of `ghFetchRepos`, run. -/
def ghFetchRepos (env : HttpEnv) (sortSlice : (Repo → Repo → Bool) → List Repo → List Repo)
    (ghFacade : GHAPIFacade) : Outcome Msg :=
  match ghFacade.GetRepos env sortSlice with
  | .ret (_, some e) => .ret (.ghErrMsg e)
  | .ret (repos, none) => .ret (.ghReposFetchedMsg repos)
  | .fatal => .fatal
  | .panic => .panic

/-- The closure of `ghPerform`, run on the outcome of its action: the record
after the action and the message delivered. -/
def ghPerform (action : Outcome (Repo × Option String)) (successMsg : String) :
    Outcome (Repo × Msg) :=
  match action with
  | .ret (repo, some e) => .ret (repo, .ghErrMsg e)
  | .ret (repo, none) => .ret (repo, .ghActionPerformedMsg successMsg)
  | .fatal => .fatal
  | .panic => .panic

/-- The closure of `ghDelete`, run. -/
def ghDelete (env : HttpEnv) (repo : Repo) : Msg :=
  match repo.Delete env with
  | some e => .ghErrMsg e
  | none => .ghRepoDeletedMsg ""

/-- The first statement of the `"enter"` case of `Update`: the selected menu item,
when there is one, becomes the choice. -/
def model.choose (m : model) : model :=
  match m.list.SelectedItem with
  | some i => { m with choice := i }
  | none => m

/-- The `switch m.choice` of the `"enter"` case of `Update`, with the
`return m, nil` that follows it: `none` is the out-of-range panic of
`m.repos[m.currentRepoIndex]`. -/
def model.enter (m : model) : Option (model × Cmd) :=
  if m.choice = "Next" then
    if m.currentRepoIndex < (m.repos.length : Int) - 1 then
      some ({ m with currentRepoIndex := m.currentRepoIndex + 1 }, .nil)
    else
      some ({ m with quitting := true }, .Quit)
  else if m.choice = "Previous" then
    if m.currentRepoIndex > 0 then
      some ({ m with currentRepoIndex := m.currentRepoIndex - 1 }, .nil)
    else
      some ({ m with quitting := true }, .Quit)
  else if m.choice = "Open in browser" then
    (index m.repos m.currentRepoIndex).map
      fun r => ({ m with loading := true }, .ghPerform .Open r "Repo opened")
  else if m.choice = "Archive" then
    (index m.repos m.currentRepoIndex).map
      fun r => ({ m with loading := true }, .ghPerform .Archive r "Repo archived")
  else if m.choice = "Unarchive" then
    (index m.repos m.currentRepoIndex).map
      fun r => ({ m with loading := true }, .ghPerform .Unarchive r "Repo unarchived")
  else if m.choice = "Make it public" then
    (index m.repos m.currentRepoIndex).map
      fun r => ({ m with loading := true }, .ghPerform .MakePublic r "Repo made public")
  else if m.choice = "Make it private" then
    (index m.repos m.currentRepoIndex).map
      fun r => ({ m with loading := true }, .ghPerform .MakePrivate r "Repo made private")
  else if m.choice = "Delete" then
    (index m.repos m.currentRepoIndex).map
      fun r => ({ m with loading := true }, .ghDelete r)
  else
    some (m, .nil)

/-- The method `model.Update`: `none` is the out-of-range panic of
`m.repos[m.currentRepoIndex]`. -/
def model.Update (w : Widgets) (m : model) (msg : Msg) : Option (model × Cmd) :=
  match msg with
  | .WindowSizeMsg Width _ =>
    some ({ m with list := { m.list with width := Width } }, .nil)
  | .ghRepoDeletedMsg _ =>
    let m := { m with loading := false, confirmMsg := "Repo deleted" }
    let m := if m.currentRepoIndex > 0 then
      { m with currentRepoIndex := m.currentRepoIndex - 1 } else m
    some (m, .ghFetchRepos m.ghFacade)
  | .ghReposFetchedMsg repos =>
    some ({ m with loading := false, repos := repos }, .nil)
  | .ghActionPerformedMsg s =>
    some ({ m with loading := false, confirmMsg := s }, .nil)
  | .ghErrMsg e =>
    some ({ m with loading := false, err := some e }, .nil)
  | .KeyMsg keypress =>
    if keypress = "q" ∨ keypress = "ctrl+c" then
      some ({ m with quitting := true }, .Quit)
    else if keypress = "enter" then
      m.choose.enter
    else
      let r := w.listUpdate m.list msg
      some ({ m with list := r.1 }, widgetCmd r.2)
  | .other _ =>
    let r := w.spinnerUpdate m.spinner msg
    some ({ m with spinner := r.1 }, widgetCmd r.2)

/-- What `View` renders: the error text, the loading line with the spinner, a
farewell text in the quit style, or the menu with its title set. -/
inductive Screen where
  | errorText (text : String)
  | loading (spinner : SpinnerModel)
  | farewell (text : String)
  | menu (list : ListModel)
deriving DecidableEq, Repr

/-- The title `fmt.Sprintf("[%d/%d] %s (%s) %s", ...)` of the menu. -/
def menuTitle (m : model) (cr : Repo) : String :=
  let archLabel := if cr.Archived then "(archived)" else "(not archived)"
  "[" ++ toString (m.currentRepoIndex + 1) ++ "/" ++ toString m.repos.length ++ "] " ++
    cr.Name ++ " (" ++ cr.Visibility ++ ") " ++ archLabel

/-- The method `model.View`: `none` is the out-of-range panic of
`m.repos[m.currentRepoIndex]`. -/
def model.View (m : model) : Option Screen :=
  match m.err with
  | some e => some (.errorText e)
  | none =>
    if m.loading then
      some (.loading m.spinner)
    else if m.quitting then
      if m.currentRepoIndex ≥ (m.repos.length : Int) - 1 then
        some (.farewell "There are no more repos. Have a nice day!")
      else
        some (.farewell "Have a nice day!")
    else
      (index m.repos m.currentRepoIndex).map
        fun cr => .menu { m.list with Title := menuTitle m cr }

/-- The menu items of `main`. -/
def choices : List String :=
  ["Next", "Open in browser", "Archive", "Unarchive", "Make it public", "Make it private",
   "Delete", "Previous"]

/-- The model `main` starts the program with: the menu on its first item, no
repositories, cursor 0, loading. -/
def initialModel (facade : GHAPIFacade) (s : SpinnerModel) : model :=
  { ghFacade := facade, spinner := s,
    list := { Title := "List", items := choices, index := 0, width := 20 },
    choice := "", quitting := false, repos := [], currentRepoIndex := 0, err := none,
    confirmMsg := "", loading := true }

/-- Handling a sequence of messages in order, dropping the commands; `none`
when one of them panics. -/
def runMsgs (w : Widgets) (m : model) : List Msg → Option model
  | [] => some m
  | msg :: rest =>
    match m.Update w msg with
    | none => none
    | some (m1, _) => runMsgs w m1 rest

/-- The states reachable from a state by handling messages. -/
inductive ReachableFrom (w : Widgets) (m : model) : model → Prop where
  | refl : ReachableFrom w m m
  | step {m1 m2 : model} {msg : Msg} {cmd : Cmd} :
      ReachableFrom w m m1 → m1.Update w msg = some (m2, cmd) → ReachableFrom w m m2

/-- A menu that moves its selection with the up and down keys, as the list
widget does by default, and a spinner that advances on every message. -/
def arrowKeys : Widgets :=
  { listUpdate := fun l msg =>
      if msg = .KeyMsg "down" then
        ({ l with index := min (l.index + 1) (l.items.length - 1) }, none)
      else if msg = .KeyMsg "up" then
        ({ l with index := l.index - 1 }, none)
      else (l, none),
    spinnerUpdate := fun s _ => ({ frame := s.frame + 1 }, some 0) }

/-- Whether a command calls the gateway. -/
def Cmd.isGateway : Cmd → Bool
  | .ghFetchRepos _ => true
  | .ghPerform _ _ _ => true
  | .ghDelete _ => true
  | _ => false

/-- The menu items that dispatch a gateway action on the current record. -/
def mutatingChoices : List String :=
  ["Open in browser", "Archive", "Unarchive", "Make it public", "Make it private", "Delete"]

/-- The command the menu item dispatches on a record, read off the cases of
`Update`. -/
def dispatched (c : String) (r : Repo) : Cmd :=
  if c = "Open in browser" then .ghPerform .Open r "Repo opened"
  else if c = "Archive" then .ghPerform .Archive r "Repo archived"
  else if c = "Unarchive" then .ghPerform .Unarchive r "Repo unarchived"
  else if c = "Make it public" then .ghPerform .MakePublic r "Repo made public"
  else if c = "Make it private" then .ghPerform .MakePrivate r "Repo made private"
  else .ghDelete r

/-- A string occurs inside another. -/
def Contains (s t : String) : Prop := ∃ a b, s = a ++ t ++ b

/-- The field map the method of an action passes to `update`; `Open` does not
call `update`. -/
def Action.updateFields : Action → List (String × FieldValue)
  | .Open => []
  | .Archive => [("archived", .bool true)]
  | .Unarchive => [("archived", .bool false)]
  | .MakePublic => [("visibility", .str "public")]
  | .MakePrivate => [("visibility", .str "private")]

/-- The ways a gateway round trip fails, each with the text of the failure: the
request cannot be created, it cannot be dumped, the transport returns an
error, or the response has a status other than the expected one. -/
inductive CallFails (env : HttpEnv) (method url : String) (req : Request) (okStatus : Int) :
    String → Prop where
  | create (e : String) (hnew : env.newRequestErr method url = some e) :
      CallFails env method url req okStatus ("failed to create request: " ++ e)
  | dump (e : String) (hnew : env.newRequestErr method url = none)
      (hdump : env.dumpRequestErr req = some e) :
      CallFails env method url req okStatus ("failed to dump request: " ++ e)
  | transport (e : String) (hnew : env.newRequestErr method url = none)
      (hdump : env.dumpRequestErr req = none) (hdo : env.Do req = .error e) :
      CallFails env method url req okStatus ("request failed: " ++ e)
  | status (resp : Response) (hnew : env.newRequestErr method url = none)
      (hdump : env.dumpRequestErr req = none) (hdo : env.Do req = .ok resp)
      (hstatus : resp.StatusCode ≠ okStatus) :
      CallFails env method url req okStatus (statusError resp.StatusCode resp.Body)

/-! ## Concrete values used by the witnesses -/

/-- A facade with owner `o`. -/
def facadeO : GHAPIFacade :=
  { BaseURL := "https://api.github.com/user/repos", GHAPIKey := "k", GHOwner := "o" }

/-- A public repository named `a`. -/
def repoA : Repo :=
  { Visibility := "public", Fork := false, Name := "a", Archived := false, CloneUrl := "u",
    ghApiFacade := facadeO }

/-- A public repository named `b`. -/
def repoB : Repo := { repoA with Name := "b" }

/-- A JSON object that carries only a name. -/
def jsonNamed (n : String) : RepoJson :=
  { visibility := none, fork := none, name := some n, archived := none, clone_url := none }

/-- An environment in which every request is built and answered with the given
response, whose body decodes as given. -/
def constEnv (resp : Response) (one : RepoDecode) (many : List (Option RepoJson)) : HttpEnv :=
  { newRequestErr := fun _ _ => none,
    dumpRequestErr := fun _ => none,
    Do := fun _ => .ok resp,
    unmarshalRepo := fun _ => one,
    unmarshalRepos := fun _ => .ok many }

/-- A response object that carries only `archived: true`. -/
def archivedOnly : RepoJson :=
  { visibility := none, fork := none, name := none, archived := some true, clone_url := none }

/-- The full object the server returns after archiving the repository `a`. -/
def archivedA : RepoJson :=
  { visibility := some "public", fork := some false, name := some "a", archived := some true,
    clone_url := some "u" }

/-- A model holding the repositories `a` and `b` with the given cursor and menu
selection. -/
def twoRepos (cursor : Int) (selected : Nat) (loading : Bool) (err : Option String) : model :=
  { initialModel facadeO ⟨0⟩ with
    list := { Title := "List", items := choices, index := selected, width := 20 },
    repos := [repoA, repoB], currentRepoIndex := cursor, loading := loading, err := err }

/-- The six down keys that move the menu from "Next" to "Delete". -/
def downToDelete : List Msg := List.replicate 6 (.KeyMsg "down")

/-- The six up keys that move the menu from "Delete" back to "Next". -/
def upToNext : List Msg := List.replicate 6 (.KeyMsg "up")

/-- The state after the only repository was deleted and the re-fetch delivered
the empty list. -/
def afterLastDelete : model :=
  { initialModel facadeO ⟨0⟩ with
    list := { Title := "List", items := choices, index := 6, width := 20 },
    choice := "Delete", repos := [], currentRepoIndex := 0, confirmMsg := "Repo deleted",
    loading := false }

/-- An environment in which every request is built and the transport fails
with the given error. -/
def downEnv (e : String) : HttpEnv :=
  { newRequestErr := fun _ _ => none,
    dumpRequestErr := fun _ => none,
    Do := fun _ => .error e,
    unmarshalRepo := fun _ => .null,
    unmarshalRepos := fun _ => .ok [] }

/-! ## The library sort -/

/-- Insertion adds the element and nothing else. -/
theorem insertLess_perm {α : Type} (less : α → α → Bool) (x : α) (l : List α) :
    (insertLess less x l).Perm (x :: l) := by
  induction l with
  | nil => exact List.Perm.refl _
  | cons y ys ih =>
    unfold insertLess
    split
    · exact List.Perm.refl _
    · exact (ih.cons y).trans (List.Perm.swap x y ys)

/-- Insertion into a sorted list gives a sorted list, for a strict weak ordering. -/
theorem insertLess_pairwise {α : Type} (less : α → α → Bool) (hw : StrictWeakOrder less)
    (x : α) (l : List α) (hl : l.Pairwise (fun a b => less b a = false)) :
    (insertLess less x l).Pairwise (fun a b => less b a = false) := by
  obtain ⟨hirr, htr, _⟩ := hw
  induction l with
  | nil => simp [insertLess]
  | cons y ys ih =>
    rw [List.pairwise_cons] at hl
    unfold insertLess
    split
    next hxy =>
      refine List.pairwise_cons.2 ⟨?_, List.pairwise_cons.2 hl⟩
      intro z hz
      cases hzx : less z x with
      | false => rfl
      | true =>
        exfalso
        rcases List.mem_cons.1 hz with rfl | hz
        · have := htr x z x hxy hzx
          rw [hirr x] at this
          exact Bool.noConfusion this
        · have h1 := htr z x y hzx hxy
          rw [hl.1 z hz] at h1
          exact Bool.noConfusion h1
    next hxy =>
      refine List.pairwise_cons.2 ⟨?_, ih hl.2⟩
      intro z hz
      rcases List.mem_cons.1 ((insertLess_perm less x ys).mem_iff.1 hz) with rfl | hz
      · simpa using hxy
      · exact hl.1 z hz

/-- Insertion sort meets the contract of the library sort. -/
theorem insertionSortSlice_contract {α : Type} :
    SortSliceContract (insertionSortSlice (α := α)) := by
  intro less xs hw
  induction xs with
  | nil => exact ⟨List.Perm.refl _, List.Pairwise.nil⟩
  | cons x xs ih =>
    refine ⟨?_, ?_⟩
    · exact (insertLess_perm less x _).trans (ih.1.cons x)
    · exact insertLess_pairwise less hw x _ ih.2

/-- The comparison by name is a strict weak ordering. -/
theorem nameLess_strictWeakOrder : StrictWeakOrder nameLess := by
  refine ⟨?_, ?_, ?_⟩
  · intro a
    simp [nameLess]
  · intro a b c hab hbc
    simp only [nameLess, decide_eq_true_eq] at *
    exact lt_trans hab hbc
  · intro a b c hab hbc
    simp only [nameLess, decide_eq_false_iff_not, not_lt] at *
    exact le_trans hbc hab

/-- The attribution loop succeeds on an array without null elements. -/
theorem attributeAll_map_some (facade : GHAPIFacade) (objs : List RepoJson) :
    attributeAll facade (objs.map some) = some (objs.map (freshRepo facade)) := by
  induction objs with
  | nil => rfl
  | cons o rest ih => simp [attributeAll, ih]

/-- The name of a freshly decoded record is the name the object carries, or empty. -/
theorem freshRepo_Name (facade : GHAPIFacade) (o : RepoJson) :
    (freshRepo facade o).Name = o.name.getD "" := rfl

/-- The name a is less than the name b. -/
theorem a_lt_b : ("a" : String) < "b" := by
  rw [String.lt_iff_toList_lt]
  decide

/-! ## Gateway theorems -/

/-- C3: when the list call is answered with status 200 and a body that decodes
to an array of objects, and the library sort meets its contract, then
`GetRepos` returns a rearrangement of the decoded records in which no later
name is less than an earlier one; a fetch of the names b, a returns a, b. -/
theorem GetRepos_sorted_perm (env : HttpEnv)
    (sortSlice : (Repo → Repo → Bool) → List Repo → List Repo) (facade : GHAPIFacade)
    (resp : Response) (objs : List RepoJson)
    (hsort : SortSliceContract sortSlice)
    (hnew : env.newRequestErr "GET" "https://api.github.com/user/repos" = none)
    (hdump : env.dumpRequestErr facade.listRequest = none)
    (hdo : env.Do facade.listRequest = .ok resp)
    (hstatus : resp.StatusCode = 200)
    (hread : resp.readErr = none)
    (hdecode : env.unmarshalRepos resp.Body = .ok (objs.map some)) :
    ∃ result : List Repo,
      facade.GetRepos env sortSlice = .ret (result, none) ∧
      result.Perm (objs.map (freshRepo facade)) ∧
      (∀ (i j : Nat) (_ : i < j) (hj : j < result.length),
        ¬ (result[j].Name < result[i].Name)) ∧
      (objs.map RepoJson.name = [some "b", some "a"] →
        result.map Repo.Name = ["a", "b"]) := by
  obtain ⟨hperm, hpw⟩ := hsort nameLess (objs.map (freshRepo facade)) nameLess_strictWeakOrder
  refine ⟨sortSlice nameLess (objs.map (freshRepo facade)), ?_, hperm, ?_, ?_⟩
  · simp [GHAPIFacade.GetRepos, hnew, hdump, hdo, hstatus, hread, hdecode,
      attributeAll_map_some]
  · intro i j hij hj
    have h := List.pairwise_iff_getElem.1 hpw i j (lt_trans hij hj) hj hij
    simpa [nameLess] using h
  · intro hnames
    have hp : ((sortSlice nameLess (objs.map (freshRepo facade))).map Repo.Name).Perm
        ["a", "b"] := by
      refine (hperm.map Repo.Name).trans ?_
      have : (objs.map (freshRepo facade)).map Repo.Name = ["b", "a"] := by
        have h2 : (objs.map (freshRepo facade)).map Repo.Name
            = (objs.map RepoJson.name).map (fun n => n.getD "") := by
          simp [List.map_map, Function.comp_def, freshRepo_Name]
        rw [h2, hnames]
        rfl
      rw [this]
      exact List.Perm.swap "a" "b" []
    have hs1 : ((sortSlice nameLess (objs.map (freshRepo facade))).map Repo.Name).Sorted
        (· ≤ ·) := by
      refine List.pairwise_map.2 (hpw.imp ?_)
      intro a b h
      simpa [nameLess] using h
    have hs2 : (["a", "b"] : List String).Sorted (· ≤ ·) := by
      refine List.pairwise_cons.2 ⟨?_, List.pairwise_singleton _ _⟩
      intro x hx
      rw [List.mem_singleton] at hx
      rw [hx]
      exact le_of_lt a_lt_b
    exact List.eq_of_perm_of_sorted hp hs1 hs2

/-- Witness of C3: insertion sort meets the contract, and the theorem applies to
a 200 response that decodes to the names b, a. -/
theorem GetRepos_sorted_perm_witness :
    ∃ result : List Repo,
      facadeO.GetRepos
          (constEnv ⟨200, "", none⟩ .null [some (jsonNamed "b"), some (jsonNamed "a")])
          insertionSortSlice = .ret (result, none) ∧
      result.Perm ([jsonNamed "b", jsonNamed "a"].map (freshRepo facadeO)) ∧
      (∀ (i j : Nat) (_ : i < j) (hj : j < result.length),
        ¬ (result[j].Name < result[i].Name)) ∧
      ([jsonNamed "b", jsonNamed "a"].map RepoJson.name = [some "b", some "a"] →
        result.map Repo.Name = ["a", "b"]) :=
  GetRepos_sorted_perm
    (constEnv ⟨200, "", none⟩ .null [some (jsonNamed "b"), some (jsonNamed "a")])
    insertionSortSlice facadeO ⟨200, "", none⟩ [jsonNamed "b", jsonNamed "a"]
    insertionSortSlice_contract rfl rfl rfl rfl rfl rfl

/-- The status error text contains the status code. -/
theorem statusError_contains_code (code : Int) (body : String) :
    Contains (statusError code body) (toString code) :=
  ⟨"error: received status code ", ", body: " ++ body, by
    simp [statusError, String.append_assoc]⟩

/-- The status error text contains the body. -/
theorem statusError_contains_body (code : Int) (body : String) :
    Contains (statusError code body) body :=
  ⟨"error: received status code " ++ toString code ++ ", body: ", "", by
    simp [statusError]⟩

/-- A text put in front keeps what the message contains. -/
theorem contains_with_prefix (p s t : String) (h : Contains s t) : Contains (p ++ s) t := by
  obtain ⟨a, b, hab⟩ := h
  exact ⟨p ++ a, b, by simp [hab, String.append_assoc]⟩

/-- C6: when the request is built and the transport returns a response,
`Repo.Delete` returns the nil error exactly when the status code is 204, and
for every other status code it returns an error whose message contains the
status code and the response body. -/
theorem Delete_success_iff_204 (env : HttpEnv) (repo : Repo) (resp : Response)
    (hnew : env.newRequestErr "DELETE" repo.url = none)
    (hdump : env.dumpRequestErr repo.deleteRequest = none)
    (hdo : env.Do repo.deleteRequest = .ok resp) :
    (repo.Delete env = none ↔ resp.StatusCode = 204) ∧
    (resp.StatusCode ≠ 204 →
      ∃ msg, repo.Delete env = some msg ∧
        Contains msg (toString resp.StatusCode) ∧ Contains msg resp.Body) := by
  have hval : repo.Delete env =
      if resp.StatusCode ≠ 204 then some (statusError resp.StatusCode resp.Body) else none := by
    simp [Repo.Delete, hnew, hdump, hdo]
  constructor
  · rw [hval]
    by_cases h : resp.StatusCode = 204 <;> simp [h]
  · intro h
    refine ⟨statusError resp.StatusCode resp.Body, ?_, statusError_contains_code _ _,
      statusError_contains_body _ _⟩
    rw [hval]
    simp [h]

/-- Witness of C6: a delete answered with status 200 and body `ok`. -/
theorem Delete_success_iff_204_witness :
    (repoA.Delete (constEnv ⟨200, "ok", none⟩ .null []) = none ↔ (200 : Int) = 204) ∧
    ((200 : Int) ≠ 204 →
      ∃ msg, repoA.Delete (constEnv ⟨200, "ok", none⟩ .null []) = some msg ∧
        Contains msg (toString (200 : Int)) ∧ Contains msg "ok") :=
  Delete_success_iff_204 (constEnv ⟨200, "ok", none⟩ .null []) repoA ⟨200, "ok", none⟩
    rfl rfl rfl

/-- Counterexample to C7 as stated: a 200 response whose body decodes to an
object carrying only `archived` leaves the local name `a`, while the record
that body decodes to on its own has the empty name. -/
theorem update_keeps_fields_the_body_omits :
    repoA.update (constEnv ⟨200, "", none⟩ (.object archivedOnly) []) [("archived", .bool true)]
      = .ret ({ repoA with Archived := true }, none) ∧
    ({ repoA with Archived := true } : Repo).Name = "a" ∧
    (freshRepo facadeO archivedOnly).Name = "" ∧
    ({ repoA with Archived := true } : Repo).Name ≠ (freshRepo facadeO archivedOnly).Name := by
  refine ⟨by decide, rfl, rfl, by decide⟩

/-- Decoding the same object over a record twice is decoding it once. -/
theorem decodeInto_idem (repo : Repo) (o : RepoJson) :
    (repo.decodeInto o).decodeInto o = repo.decodeInto o := by
  rcases o with ⟨v, f, n, a, c⟩
  cases v <;> cases f <;> cases n <;> cases a <;> cases c <;> rfl

/-- C7, amended: in an environment that builds every request and answers it
with one 200 response whose body decodes to an object, `Repo.update` returns
the nil error and leaves the record decoded over: every JSON-mapped field the
object carries has the server value, a field the object omits keeps its local
value, and the facade is kept; when the object carries all five fields the
JSON-mapped fields equal those of the server-returned record; and a second
call with the same fields leaves the record of the first. -/
theorem update_decodes_over_record (env : HttpEnv) (repo : Repo)
    (updateFields : List (String × FieldValue)) (resp : Response) (o : RepoJson)
    (hnew : ∀ method url, env.newRequestErr method url = none)
    (hdump : ∀ req, env.dumpRequestErr req = none)
    (hdo : ∀ req, env.Do req = .ok resp)
    (hstatus : resp.StatusCode = 200)
    (hread : resp.readErr = none)
    (hdecode : env.unmarshalRepo resp.Body = .object o) :
    repo.update env updateFields = .ret (repo.decodeInto o, none) ∧
    (repo.decodeInto o).Visibility = o.visibility.getD repo.Visibility ∧
    (repo.decodeInto o).Fork = o.fork.getD repo.Fork ∧
    (repo.decodeInto o).Name = o.name.getD repo.Name ∧
    (repo.decodeInto o).Archived = o.archived.getD repo.Archived ∧
    (repo.decodeInto o).CloneUrl = o.clone_url.getD repo.CloneUrl ∧
    (repo.decodeInto o).ghApiFacade = repo.ghApiFacade ∧
    (o.visibility.isSome → o.fork.isSome → o.name.isSome → o.archived.isSome →
      o.clone_url.isSome →
      repo.decodeInto o = { freshRepo repo.ghApiFacade o with ghApiFacade := repo.ghApiFacade }) ∧
    (repo.decodeInto o).update env updateFields = .ret (repo.decodeInto o, none) := by
  have hup : ∀ r : Repo, r.update env updateFields = .ret (r.decodeInto o, none) := by
    intro r
    simp [Repo.update, hnew, hdump, hdo, hstatus, hread, hdecode]
  refine ⟨hup repo, rfl, rfl, rfl, rfl, rfl, rfl, ?_, ?_⟩
  · rcases o with ⟨v, f, n, a, c⟩
    intro hv hf hn ha hc
    cases v <;> cases f <;> cases n <;> cases a <;> cases c <;>
      first
        | rfl
        | (exfalso; simp at hv hf hn ha hc)
  · rw [hup, decodeInto_idem]

/-- Witness of C7: archiving `a` against a server that returns the full updated
object. -/
theorem update_decodes_over_record_witness :
    repoA.update (constEnv ⟨200, "", none⟩ (.object archivedA) []) [("archived", .bool true)]
      = .ret (repoA.decodeInto archivedA, none) ∧
    (repoA.decodeInto archivedA).Archived = true ∧
    repoA.decodeInto archivedA
      = { freshRepo repoA.ghApiFacade archivedA with ghApiFacade := repoA.ghApiFacade } ∧
    (repoA.decodeInto archivedA).update (constEnv ⟨200, "", none⟩ (.object archivedA) [])
        [("archived", .bool true)]
      = .ret (repoA.decodeInto archivedA, none) :=
  have h := update_decodes_over_record (constEnv ⟨200, "", none⟩ (.object archivedA) []) repoA
    [("archived", .bool true)] ⟨200, "", none⟩ archivedA (fun _ _ => rfl) (fun _ => rfl)
    (fun _ => rfl) rfl rfl rfl
  ⟨h.1, h.2.2.2.2.1, h.2.2.2.2.2.2.2.1 rfl rfl rfl rfl rfl, h.2.2.2.2.2.2.2.2⟩

/-! ## Session theorems -/

/-- C4: with "Next" selected, enter adds exactly one to the cursor, returns no
command and leaves the quitting flag when the cursor plus one is at most the
last index, and otherwise sets quitting and returns the quit command with the
cursor unchanged; with "Previous" selected, enter subtracts exactly one when
the cursor is positive, and otherwise sets quitting and returns the quit
command with the cursor unchanged.  In every case the repository list is the
same and the command is not a gateway command. -/
theorem navigation_step (w : Widgets) (m : model) (c : String)
    (hc : c = "Next" ∨ c = "Previous")
    (hsel : m.list.SelectedItem = some c) :
    m.Update w (.KeyMsg "enter") =
      (if c = "Next" then
        if m.currentRepoIndex + 1 ≤ (m.repos.length : Int) - 1 then
          some ({ m with choice := "Next", currentRepoIndex := m.currentRepoIndex + 1 }, .nil)
        else
          some ({ m with choice := "Next", quitting := true }, .Quit)
      else
        if m.currentRepoIndex > 0 then
          some ({ m with choice := "Previous", currentRepoIndex := m.currentRepoIndex - 1 }, .nil)
        else
          some ({ m with choice := "Previous", quitting := true }, .Quit)) ∧
    (∀ m1 cmd, m.Update w (.KeyMsg "enter") = some (m1, cmd) →
      m1.repos = m.repos ∧ cmd.isGateway = false) := by
  have hval : m.Update w (.KeyMsg "enter") =
      (if c = "Next" then
        if m.currentRepoIndex + 1 ≤ (m.repos.length : Int) - 1 then
          some ({ m with choice := "Next", currentRepoIndex := m.currentRepoIndex + 1 }, .nil)
        else
          some ({ m with choice := "Next", quitting := true }, .Quit)
      else
        if m.currentRepoIndex > 0 then
          some ({ m with choice := "Previous", currentRepoIndex := m.currentRepoIndex - 1 }, .nil)
        else
          some ({ m with choice := "Previous", quitting := true }, .Quit)) := by
    rcases hc with rfl | rfl
    · by_cases h : m.currentRepoIndex + 1 ≤ (m.repos.length : Int) - 1
      · have h2 : m.currentRepoIndex < (m.repos.length : Int) - 1 := by omega
        simp [model.Update, model.choose, model.enter, hsel, h, h2]
      · have h2 : ¬ m.currentRepoIndex < (m.repos.length : Int) - 1 := by omega
        simp [model.Update, model.choose, model.enter, hsel, h, h2]
    · by_cases h : m.currentRepoIndex > 0
      · simp [model.Update, model.choose, model.enter, hsel, h]
      · simp [model.Update, model.choose, model.enter, hsel, h]
  refine ⟨hval, ?_⟩
  intro m1 cmd hup
  rw [hval] at hup
  split_ifs at hup <;> simp only [Option.some.injEq, Prod.mk.injEq] at hup <;>
    obtain ⟨rfl, rfl⟩ := hup <;> exact ⟨rfl, rfl⟩

/-- Witness of C4: "Next" at cursor 0 of two repositories. -/
theorem navigation_step_witness :
    (twoRepos 0 0 false none).Update arrowKeys (.KeyMsg "enter") =
      (if "Next" = "Next" then
        if (twoRepos 0 0 false none).currentRepoIndex + 1
            ≤ ((twoRepos 0 0 false none).repos.length : Int) - 1 then
          some ({ twoRepos 0 0 false none with
            choice := "Next",
            currentRepoIndex := (twoRepos 0 0 false none).currentRepoIndex + 1 }, .nil)
        else
          some ({ twoRepos 0 0 false none with choice := "Next", quitting := true }, .Quit)
      else
        if (twoRepos 0 0 false none).currentRepoIndex > 0 then
          some ({ twoRepos 0 0 false none with
            choice := "Previous",
            currentRepoIndex := (twoRepos 0 0 false none).currentRepoIndex - 1 }, .nil)
        else
          some ({ twoRepos 0 0 false none with choice := "Previous", quitting := true }, .Quit)) :=
  (navigation_step arrowKeys (twoRepos 0 0 false none) "Next" (Or.inl rfl) rfl).1

/-- C5: in a state with cursor p at least 0, handling the deleted message
returns the re-fetch command and a state with cursor max(0, p - 1), loading
cleared and the same repository list; and when p is an index of a list of at
least two records and the re-fetch delivers that list without the record at p,
the cursor is an index of the new list. -/
theorem cursor_after_delete (w : Widgets) (m : model) (s : String)
    (hp : 0 ≤ m.currentRepoIndex) :
    m.Update w (.ghRepoDeletedMsg s) =
      some ({ m with loading := false, confirmMsg := "Repo deleted",
                     currentRepoIndex := max 0 (m.currentRepoIndex - 1) },
            .ghFetchRepos m.ghFacade) ∧
    (0 < m.currentRepoIndex → max 0 (m.currentRepoIndex - 1) = m.currentRepoIndex - 1) ∧
    (m.currentRepoIndex = 0 → max 0 (m.currentRepoIndex - 1) = 0) ∧
    (m.currentRepoIndex < (m.repos.length : Int) → 2 ≤ m.repos.length →
      ∃ m1 m2, m.Update w (.ghRepoDeletedMsg s) = some (m1, .ghFetchRepos m.ghFacade) ∧
        m1.Update w (.ghReposFetchedMsg (m.repos.eraseIdx m.currentRepoIndex.toNat))
          = some (m2, .nil) ∧
        m2.repos = m.repos.eraseIdx m.currentRepoIndex.toNat ∧
        m2.currentRepoIndex = max 0 (m.currentRepoIndex - 1) ∧
        0 ≤ m2.currentRepoIndex ∧ m2.currentRepoIndex < (m2.repos.length : Int)) := by
  have hval : m.Update w (.ghRepoDeletedMsg s) =
      some ({ m with loading := false, confirmMsg := "Repo deleted",
                     currentRepoIndex := max 0 (m.currentRepoIndex - 1) },
            .ghFetchRepos m.ghFacade) := by
    by_cases h : m.currentRepoIndex > 0
    · have h2 : max 0 (m.currentRepoIndex - 1) = m.currentRepoIndex - 1 := by omega
      simp [model.Update, h, h2]
    · have h2 : max 0 (m.currentRepoIndex - 1) = m.currentRepoIndex := by omega
      simp [model.Update, h, h2]
  refine ⟨hval, by omega, by omega, ?_⟩
  intro hlt hn
  refine ⟨_, _, hval, rfl, rfl, rfl, ?_, ?_⟩
  · exact le_max_left _ _
  · have hlen : (m.repos.eraseIdx m.currentRepoIndex.toNat).length = m.repos.length - 1 := by
      apply List.length_eraseIdx_of_lt
      omega
    show max 0 (m.currentRepoIndex - 1) < ((m.repos.eraseIdx m.currentRepoIndex.toNat).length : Int)
    rw [hlen]
    omega

/-- Witness of C5: deleting `b` at cursor 1 of two repositories. -/
theorem cursor_after_delete_witness :
    ∃ m1 m2, (twoRepos 1 6 true none).Update arrowKeys (.ghRepoDeletedMsg "")
        = some (m1, .ghFetchRepos (twoRepos 1 6 true none).ghFacade) ∧
      m1.Update arrowKeys
          (.ghReposFetchedMsg ((twoRepos 1 6 true none).repos.eraseIdx
            (twoRepos 1 6 true none).currentRepoIndex.toNat))
        = some (m2, .nil) ∧
      m2.repos = (twoRepos 1 6 true none).repos.eraseIdx
        (twoRepos 1 6 true none).currentRepoIndex.toNat ∧
      m2.currentRepoIndex = max 0 ((twoRepos 1 6 true none).currentRepoIndex - 1) ∧
      0 ≤ m2.currentRepoIndex ∧ m2.currentRepoIndex < (m2.repos.length : Int) :=
  (cursor_after_delete arrowKeys (twoRepos 1 6 true none) "" (by decide)).2.2.2
    (by decide) (by decide)

/-- The choice assignment leaves the error. -/
theorem choose_err (m : model) : m.choose.err = m.err := by
  unfold model.choose
  cases m.list.SelectedItem <;> rfl

/-- The enter case leaves the error. -/
theorem enter_err (m m1 : model) (cmd : Cmd) (h : m.enter = some (m1, cmd)) :
    m1.err = m.err := by
  unfold model.enter at h
  split_ifs at h <;>
    simp only [Option.map_eq_some', Option.some.injEq, Prod.mk.injEq] at h <;>
    first
      | (obtain ⟨rfl, -⟩ := h; rfl)
      | (obtain ⟨r, -, rfl, -⟩ := h; rfl)

/-- Every message leaves the error, except an error message, which sets it. -/
theorem Update_err (w : Widgets) (m m1 : model) (msg : Msg) (cmd : Cmd)
    (h : m.Update w msg = some (m1, cmd)) :
    m1.err = m.err ∨ ∃ e, msg = .ghErrMsg e ∧ m1.err = some e := by
  cases msg with
  | WindowSizeMsg width height =>
    simp only [model.Update, Option.some.injEq, Prod.mk.injEq] at h
    obtain ⟨rfl, -⟩ := h
    exact Or.inl rfl
  | ghRepoDeletedMsg s =>
    simp only [model.Update] at h
    split_ifs at h <;> simp only [Option.some.injEq, Prod.mk.injEq] at h <;>
      obtain ⟨rfl, -⟩ := h <;> exact Or.inl rfl
  | ghReposFetchedMsg repos =>
    simp only [model.Update, Option.some.injEq, Prod.mk.injEq] at h
    obtain ⟨rfl, -⟩ := h
    exact Or.inl rfl
  | ghActionPerformedMsg s =>
    simp only [model.Update, Option.some.injEq, Prod.mk.injEq] at h
    obtain ⟨rfl, -⟩ := h
    exact Or.inl rfl
  | ghErrMsg e =>
    simp only [model.Update, Option.some.injEq, Prod.mk.injEq] at h
    obtain ⟨rfl, -⟩ := h
    exact Or.inr ⟨e, rfl, rfl⟩
  | other id =>
    simp only [model.Update, Option.some.injEq, Prod.mk.injEq] at h
    obtain ⟨rfl, -⟩ := h
    exact Or.inl rfl
  | KeyMsg k =>
    left
    unfold model.Update at h
    by_cases hq : k = "q" ∨ k = "ctrl+c"
    · simp only [if_pos hq, Option.some.injEq, Prod.mk.injEq] at h
      obtain ⟨rfl, -⟩ := h
      rfl
    · by_cases he : k = "enter"
      · simp only [if_neg hq, if_pos he] at h
        exact (enter_err _ _ _ h).trans (choose_err m)
      · simp only [if_neg hq, if_neg he, Option.some.injEq, Prod.mk.injEq] at h
        obtain ⟨rfl, -⟩ := h
        rfl

/-- With an error set, the screen is the text of the error. -/
theorem View_err (m : model) (e : String) (h : m.err = some e) :
    m.View = some (.errorText e) := by
  simp [model.View, h]

/-- C10: once the error is set, every state reached by handling further
messages still holds an error, and `View` returns exactly the text of the
error held, not the menu, the loading line or a farewell. -/
theorem sticky_error (w : Widgets) (m m1 : model) (e : String)
    (herr : m.err = some e) (hreach : ReachableFrom w m m1) :
    ∃ e1, m1.err = some e1 ∧ m1.View = some (.errorText e1) := by
  induction hreach with
  | refl => exact ⟨e, herr, View_err m e herr⟩
  | step _ hup ih =>
    obtain ⟨e1, he1, -⟩ := ih
    rcases Update_err w _ _ _ _ hup with h | ⟨e2, -, h⟩
    · exact ⟨e1, h.trans he1, View_err _ _ (h.trans he1)⟩
    · exact ⟨e2, h, View_err _ _ h⟩

/-- Witness of C10: after an error, "Next" and a later fetch change the cursor
and the list while the error stays on screen. -/
theorem sticky_error_witness :
    ∃ e1, ({ twoRepos 1 0 false (some "boom") with
              choice := "Next", repos := [repoB, repoA] } : model).err = some e1 ∧
      ({ twoRepos 1 0 false (some "boom") with
              choice := "Next", repos := [repoB, repoA] } : model).View
        = some (.errorText e1) :=
  sticky_error arrowKeys (twoRepos 0 0 false (some "boom"))
    { twoRepos 1 0 false (some "boom") with choice := "Next", repos := [repoB, repoA] }
    "boom" rfl
    (ReachableFrom.step
      (ReachableFrom.step ReachableFrom.refl
        (show (twoRepos 0 0 false (some "boom")).Update arrowKeys (.KeyMsg "enter")
          = some ({ twoRepos 1 0 false (some "boom") with choice := "Next" }, .nil) from rfl))
      (show ({ twoRepos 1 0 false (some "boom") with choice := "Next" } : model).Update arrowKeys
          (.ghReposFetchedMsg [repoB, repoA])
        = some ({ twoRepos 1 0 false (some "boom") with
                    choice := "Next", repos := [repoB, repoA] }, .nil) from rfl))

/-- The update returns an error exactly when its round trip fails, with the
text of the failure, and then the record is the one it was given. -/
theorem update_fails_iff (env : HttpEnv) (repo r1 : Repo)
    (updateFields : List (String × FieldValue)) (e : String) :
    repo.update env updateFields = .ret (r1, some e) ↔
      (r1 = repo ∧
        CallFails env "PATCH" repo.url (repo.updateRequest updateFields) 200 e) := by
  constructor
  · intro h
    unfold Repo.update at h
    cases hnew : env.newRequestErr "PATCH" repo.url with
    | some e1 =>
      simp only [hnew, Outcome.ret.injEq, Prod.mk.injEq, Option.some.injEq] at h
      obtain ⟨rfl, rfl⟩ := h
      exact ⟨rfl, .create e1 hnew⟩
    | none =>
      cases hdump : env.dumpRequestErr (repo.updateRequest updateFields) with
      | some e1 =>
        simp only [hnew, hdump, Outcome.ret.injEq, Prod.mk.injEq, Option.some.injEq] at h
        obtain ⟨rfl, rfl⟩ := h
        exact ⟨rfl, .dump e1 hnew hdump⟩
      | none =>
        cases hdo : env.Do (repo.updateRequest updateFields) with
        | error e1 =>
          simp only [hnew, hdump, hdo, Outcome.ret.injEq, Prod.mk.injEq,
            Option.some.injEq] at h
          obtain ⟨rfl, rfl⟩ := h
          exact ⟨rfl, .transport e1 hnew hdump hdo⟩
        | ok resp =>
          simp only [hnew, hdump, hdo] at h
          by_cases hstatus : resp.StatusCode ≠ 200
          · simp only [if_pos hstatus, Outcome.ret.injEq, Prod.mk.injEq,
              Option.some.injEq] at h
            obtain ⟨rfl, rfl⟩ := h
            exact ⟨rfl, .status resp hnew hdump hdo hstatus⟩
          · exfalso
            simp only [if_neg hstatus] at h
            cases hread : resp.readErr with
            | some e1 => simp [hread] at h
            | none =>
              cases hdec : env.unmarshalRepo resp.Body <;> simp [hread, hdec] at h
  · rintro ⟨rfl, hf⟩
    cases hf with
    | create e1 hnew => simp [Repo.update, hnew]
    | dump e1 hnew hdump => simp [Repo.update, hnew, hdump]
    | transport e1 hnew hdump hdo => simp [Repo.update, hnew, hdump, hdo]
    | status resp hnew hdump hdo hstatus => simp [Repo.update, hnew, hdump, hdo, hstatus]

/-- The delete returns an error exactly when its round trip fails, with the
text of the failure. -/
theorem Delete_fails_iff (env : HttpEnv) (repo : Repo) (e : String) :
    repo.Delete env = some e ↔
      CallFails env "DELETE" repo.url repo.deleteRequest 204 e := by
  constructor
  · intro h
    unfold Repo.Delete at h
    cases hnew : env.newRequestErr "DELETE" repo.url with
    | some e1 =>
      simp only [hnew, Option.some.injEq] at h
      subst h
      exact .create e1 hnew
    | none =>
      cases hdump : env.dumpRequestErr repo.deleteRequest with
      | some e1 =>
        simp only [hnew, hdump, Option.some.injEq] at h
        subst h
        exact .dump e1 hnew hdump
      | none =>
        cases hdo : env.Do repo.deleteRequest with
        | error e1 =>
          simp only [hnew, hdump, hdo, Option.some.injEq] at h
          subst h
          exact .transport e1 hnew hdump hdo
        | ok resp =>
          simp only [hnew, hdump, hdo] at h
          by_cases hstatus : resp.StatusCode ≠ 204
          · simp only [if_pos hstatus, Option.some.injEq] at h
            subst h
            exact .status resp hnew hdump hdo hstatus
          · simp [if_neg hstatus] at h
  · intro hf
    cases hf with
    | create e1 hnew => simp [Repo.Delete, hnew]
    | dump e1 hnew hdump => simp [Repo.Delete, hnew, hdump]
    | transport e1 hnew hdump hdo => simp [Repo.Delete, hnew, hdump, hdo]
    | status resp hnew hdump hdo hstatus => simp [Repo.Delete, hnew, hdump, hdo, hstatus]

/-- The common tail of the four update actions returns an error exactly when
the update did, with the text put behind the fixed prefix. -/
theorem wrapUpdate_fails_iff (x : Outcome (Repo × Option String)) (r1 : Repo) (e : String) :
    wrapUpdate x = .ret (r1, some e) ↔
      ∃ e0, x = .ret (r1, some e0) ∧ e = "Failed to update repo: " ++ e0 := by
  rcases x with ⟨r, _ | e0⟩ | _ | _
  · simp [wrapUpdate]
  · simp only [wrapUpdate, Outcome.ret.injEq, Prod.mk.injEq, Option.some.injEq]
    constructor
    · rintro ⟨rfl, rfl⟩
      exact ⟨e0, ⟨rfl, rfl⟩, rfl⟩
    · rintro ⟨e1, ⟨rfl, rfl⟩, rfl⟩
      exact ⟨rfl, rfl⟩
  · simp [wrapUpdate]
  · simp [wrapUpdate]

/-- An action returns an error exactly when it is one of the four update
actions and the round trip of its PATCH fails; the record is then the one it
was given and the text is the failure behind the fixed prefix. -/
theorem run_fails_iff (env : HttpEnv) (act : Action) (repo r1 : Repo) (e : String) :
    act.run env repo = .ret (r1, some e) ↔
      (act ≠ .Open ∧ r1 = repo ∧
        ∃ e0, e = "Failed to update repo: " ++ e0 ∧
          CallFails env "PATCH" repo.url (repo.updateRequest act.updateFields) 200 e0) := by
  have key : ∀ fields : List (String × FieldValue),
      wrapUpdate (repo.update env fields) = .ret (r1, some e) ↔
        (r1 = repo ∧ ∃ e0, e = "Failed to update repo: " ++ e0 ∧
          CallFails env "PATCH" repo.url (repo.updateRequest fields) 200 e0) := by
    intro fields
    rw [wrapUpdate_fails_iff]
    constructor
    · rintro ⟨e0, h, rfl⟩
      obtain ⟨h1, h2⟩ := (update_fails_iff env repo r1 fields e0).1 h
      exact ⟨h1, e0, rfl, h2⟩
    · rintro ⟨h1, e0, rfl, h2⟩
      exact ⟨e0, (update_fails_iff env repo r1 fields e0).2 ⟨h1, h2⟩, rfl⟩
  cases act with
  | Open => simp [Action.run, Repo.Open]
  | Archive =>
    simpa [Action.run, Repo.Archive, Action.updateFields] using key [("archived", .bool true)]
  | Unarchive =>
    simpa [Action.run, Repo.Unarchive, Action.updateFields] using key [("archived", .bool false)]
  | MakePublic =>
    simpa [Action.run, Repo.MakePublic, Action.updateFields]
      using key [("visibility", .str "public")]
  | MakePrivate =>
    simpa [Action.run, Repo.MakePrivate, Action.updateFields]
      using key [("visibility", .str "private")]

/-- C8: a mutating gateway call fails exactly when its request cannot be
created or dumped, the transport returns an error, or the status is not the
expected one (200 for the PATCH of Archive, Unarchive, MakePublic and
MakePrivate, 204 for Delete; Open never fails).  A failing action returns the
failure text behind "Failed to update repo: " and leaves the record, a failing
delete returns the failure text, and for an unexpected status (such as 422)
the text contains the status code and the body.  `ghPerform` and `ghDelete`
deliver every returned error as the error message.  For every error, handling
the error message stores it, clears loading and changes nothing else, so the
cursor and the repository list are the same, and `View` shows the error; and
in the resulting state enter on "Next" adds one to the cursor when the next
index is in bounds. -/
theorem failed_action_recovery (env : HttpEnv) (w : Widgets) (m : model) (repo : Repo) :
    (∀ (act : Action) (r1 : Repo) (e : String),
      act.run env repo = .ret (r1, some e) ↔
        (act ≠ .Open ∧ r1 = repo ∧
          ∃ e0, e = "Failed to update repo: " ++ e0 ∧
            CallFails env "PATCH" repo.url (repo.updateRequest act.updateFields) 200 e0)) ∧
    (∀ (act : Action) (successMsg : String) (r1 : Repo) (e : String),
      act.run env repo = .ret (r1, some e) →
        ghPerform (act.run env repo) successMsg = .ret (r1, .ghErrMsg e)) ∧
    (∀ e : String,
      repo.Delete env = some e ↔ CallFails env "DELETE" repo.url repo.deleteRequest 204 e) ∧
    (∀ e : String, repo.Delete env = some e → ghDelete env repo = .ghErrMsg e) ∧
    (∀ (method url : String) (req : Request) (okStatus : Int) (resp : Response),
      env.newRequestErr method url = none → env.dumpRequestErr req = none →
      env.Do req = .ok resp → resp.StatusCode ≠ okStatus →
        ∃ e0, CallFails env method url req okStatus e0 ∧
          Contains e0 (toString resp.StatusCode) ∧ Contains e0 resp.Body ∧
          Contains ("Failed to update repo: " ++ e0) (toString resp.StatusCode) ∧
          Contains ("Failed to update repo: " ++ e0) resp.Body) ∧
    (∀ e : String,
      m.Update w (.ghErrMsg e) = some ({ m with loading := false, err := some e }, .nil) ∧
      ({ m with loading := false, err := some e } : model).View = some (.errorText e) ∧
      (m.list.SelectedItem = some "Next" →
        m.currentRepoIndex + 1 ≤ (m.repos.length : Int) - 1 →
        ({ m with loading := false, err := some e } : model).Update w (.KeyMsg "enter")
          = some ({ m with loading := false, err := some e, choice := "Next",
                           currentRepoIndex := m.currentRepoIndex + 1 }, .nil))) := by
  refine ⟨fun act r1 e => run_fails_iff env act repo r1 e, ?_,
    fun e => Delete_fails_iff env repo e, ?_, ?_, ?_⟩
  · intro act successMsg r1 e h
    rw [h]
    rfl
  · intro e h
    simp [ghDelete, h]
  · intro method url req okStatus resp hnew hdump hdo hstatus
    exact ⟨_, .status resp hnew hdump hdo hstatus, statusError_contains_code _ _,
      statusError_contains_body _ _,
      contains_with_prefix _ _ _ (statusError_contains_code _ _),
      contains_with_prefix _ _ _ (statusError_contains_body _ _)⟩
  · intro e
    refine ⟨rfl, rfl, ?_⟩
    intro hsel hin
    have h2 : m.currentRepoIndex < (m.repos.length : Int) - 1 := by omega
    simp [model.Update, model.choose, model.enter, hsel, h2]

/-- Witness of C8: archiving `a` is answered with 422, and deleting `a` meets a
transport failure, while the cursor is at 0 of two repositories with "Next"
selected; each error reaches the session as the error message, is stored with
the cursor and the list unchanged, and "Next" then moves the cursor to 1. -/
theorem failed_action_recovery_witness :
    ghPerform (Action.run (constEnv ⟨422, "Validation Failed", none⟩ .null []) .Archive repoA)
        "Repo archived"
      = .ret (repoA, .ghErrMsg
          ("Failed to update repo: " ++ statusError 422 "Validation Failed")) ∧
    ghDelete (downEnv "no route to host") repoA
      = .ghErrMsg ("request failed: " ++ "no route to host") ∧
    (twoRepos 0 0 true none).Update arrowKeys
        (.ghErrMsg ("Failed to update repo: " ++ statusError 422 "Validation Failed"))
      = some ({ twoRepos 0 0 true none with
                  loading := false,
                  err := some ("Failed to update repo: " ++ statusError 422 "Validation Failed") },
              .nil) ∧
    ({ twoRepos 0 0 true none with
          loading := false,
          err := some ("Failed to update repo: " ++ statusError 422 "Validation Failed") }
        : model).Update arrowKeys (.KeyMsg "enter")
      = some ({ twoRepos 0 0 true none with
                  loading := false,
                  err := some ("Failed to update repo: " ++ statusError 422 "Validation Failed"),
                  choice := "Next",
                  currentRepoIndex := (twoRepos 0 0 true none).currentRepoIndex + 1 }, .nil) :=
  have hA := failed_action_recovery (constEnv ⟨422, "Validation Failed", none⟩ .null [])
    arrowKeys (twoRepos 0 0 true none) repoA
  have hD := failed_action_recovery (downEnv "no route to host") arrowKeys
    (twoRepos 0 0 true none) repoA
  have hrun := (hA.1 .Archive repoA
      ("Failed to update repo: " ++ statusError 422 "Validation Failed")).2
    ⟨by decide, rfl, _, rfl, .status ⟨422, "Validation Failed", none⟩ rfl rfl rfl (by decide)⟩
  have hdel := (hD.2.2.1 ("request failed: " ++ "no route to host")).2
    (.transport "no route to host" rfl rfl rfl)
  have hup := hA.2.2.2.2.2
    ("Failed to update repo: " ++ statusError 422 "Validation Failed")
  ⟨hA.2.1 .Archive "Repo archived" repoA _ hrun, hD.2.2.2.1 _ hdel, hup.1,
    hup.2.2 rfl (by decide)⟩

/-- Counterexample to C9 as stated: from the start, after the fetch of `a` and
`b` the user selects "Delete" and presses enter, which sets loading and
dispatches the delete of `a`; a second enter in that loading state dispatches
the delete of `a` again. -/
theorem busy_state_dispatches_again :
    runMsgs arrowKeys (initialModel facadeO ⟨0⟩)
        ([.ghReposFetchedMsg [repoA, repoB]] ++ downToDelete ++ [.KeyMsg "enter"])
      = some { twoRepos 0 6 true none with choice := "Delete" } ∧
    ({ twoRepos 0 6 true none with choice := "Delete" } : model).loading = true ∧
    ({ twoRepos 0 6 true none with choice := "Delete" } : model).list.SelectedItem
      = some "Delete" ∧
    "Delete" ∈ mutatingChoices ∧
    ({ twoRepos 0 6 true none with choice := "Delete" } : model).Update arrowKeys
        (.KeyMsg "enter")
      = some ({ twoRepos 0 6 true none with choice := "Delete" }, .ghDelete repoA) ∧
    (Cmd.ghDelete repoA).isGateway = true := by
  refine ⟨by decide, rfl, rfl, by decide, by decide, rfl⟩

/-- C9, amended: enter on a mutating menu item with the cursor on a record sets
loading and returns the gateway command of that item on the record, whatever
the loading flag was before: a state that is already loading dispatches again,
and the result does not depend on the flag. -/
theorem enter_dispatches_regardless_of_loading (w : Widgets) (m : model) (c : String) (r : Repo)
    (hsel : m.list.SelectedItem = some c)
    (hc : c ∈ mutatingChoices)
    (hr : index m.repos m.currentRepoIndex = some r) :
    m.Update w (.KeyMsg "enter") = some ({ m with choice := c, loading := true }, dispatched c r) ∧
    (dispatched c r).isGateway = true ∧
    (∀ b, ({ m with loading := b } : model).Update w (.KeyMsg "enter")
      = m.Update w (.KeyMsg "enter")) := by
  have key : ∀ b, ({ m with loading := b } : model).Update w (.KeyMsg "enter")
      = some ({ m with choice := c, loading := true }, dispatched c r) := by
    intro b
    simp only [mutatingChoices, List.mem_cons, List.mem_singleton, List.not_mem_nil,
      or_false] at hc
    rcases hc with rfl | rfl | rfl | rfl | rfl | rfl <;>
      simp [model.Update, model.choose, model.enter, hsel, hr, dispatched]
  have hm : m.Update w (.KeyMsg "enter")
      = some ({ m with choice := c, loading := true }, dispatched c r) := key m.loading
  refine ⟨hm, ?_, fun b => (key b).trans hm.symm⟩
  simp only [mutatingChoices, List.mem_cons, List.mem_singleton, List.not_mem_nil,
    or_false] at hc
  rcases hc with rfl | rfl | rfl | rfl | rfl | rfl <;> simp [dispatched, Cmd.isGateway]

/-- Witness of C9 amended: "Archive" on `a` while loading. -/
theorem enter_dispatches_regardless_of_loading_witness :
    (twoRepos 0 2 true none).Update arrowKeys (.KeyMsg "enter")
      = some ({ twoRepos 0 2 true none with choice := "Archive", loading := true },
              dispatched "Archive" repoA) ∧
    (dispatched "Archive" repoA).isGateway = true ∧
    (∀ b, ({ twoRepos 0 2 true none with loading := b } : model).Update arrowKeys
        (.KeyMsg "enter")
      = (twoRepos 0 2 true none).Update arrowKeys (.KeyMsg "enter")) :=
  enter_dispatches_regardless_of_loading arrowKeys (twoRepos 0 2 true none) "Archive" repoA
    rfl (by decide) rfl

/-- The choice assignment leaves the cursor and the list. -/
theorem choose_cursor (m : model) :
    m.choose.currentRepoIndex = m.currentRepoIndex ∧ m.choose.repos = m.repos := by
  unfold model.choose
  cases m.list.SelectedItem <;> exact ⟨rfl, rfl⟩

/-- The enter case leaves the list, and leaves the cursor or moves it by one
inside the bounds. -/
theorem enter_cursor (m m1 : model) (cmd : Cmd) (h : m.enter = some (m1, cmd)) :
    m1.repos = m.repos ∧
    (m1.currentRepoIndex = m.currentRepoIndex ∨
      (m1.currentRepoIndex = m.currentRepoIndex + 1 ∧
        m.currentRepoIndex < (m.repos.length : Int) - 1) ∨
      (m1.currentRepoIndex = m.currentRepoIndex - 1 ∧ m.currentRepoIndex > 0)) := by
  unfold model.enter at h
  split_ifs at h with h1 h2 h3 h4 <;>
    simp only [Option.map_eq_some', Option.some.injEq, Prod.mk.injEq] at h <;>
    first
      | (obtain ⟨rfl, -⟩ := h; first
          | exact ⟨rfl, Or.inl rfl⟩
          | exact ⟨rfl, Or.inr (Or.inl ⟨rfl, h2⟩)⟩
          | exact ⟨rfl, Or.inr (Or.inr ⟨rfl, h3⟩)⟩
          | exact ⟨rfl, Or.inr (Or.inr ⟨rfl, h4⟩)⟩)
      | (obtain ⟨r, -, rfl, -⟩ := h; exact ⟨rfl, Or.inl rfl⟩)

/-- Every message other than a fetch result leaves the list, and leaves the
cursor or moves it by one inside the bounds. -/
theorem Update_cursor (w : Widgets) (m m1 : model) (msg : Msg) (cmd : Cmd)
    (h : m.Update w msg = some (m1, cmd))
    (hmsg : ∀ repos, msg ≠ .ghReposFetchedMsg repos) :
    m1.repos = m.repos ∧
    (m1.currentRepoIndex = m.currentRepoIndex ∨
      (m1.currentRepoIndex = m.currentRepoIndex + 1 ∧
        m.currentRepoIndex < (m.repos.length : Int) - 1) ∨
      (m1.currentRepoIndex = m.currentRepoIndex - 1 ∧ m.currentRepoIndex > 0)) := by
  cases msg with
  | WindowSizeMsg width height =>
    simp only [model.Update, Option.some.injEq, Prod.mk.injEq] at h
    obtain ⟨rfl, -⟩ := h
    exact ⟨rfl, Or.inl rfl⟩
  | ghRepoDeletedMsg s =>
    simp only [model.Update] at h
    split_ifs at h with hp <;> simp only [Option.some.injEq, Prod.mk.injEq] at h <;>
      obtain ⟨rfl, -⟩ := h
    · exact ⟨rfl, Or.inr (Or.inr ⟨rfl, hp⟩)⟩
    · exact ⟨rfl, Or.inl rfl⟩
  | ghReposFetchedMsg repos => exact absurd rfl (hmsg repos)
  | ghActionPerformedMsg s =>
    simp only [model.Update, Option.some.injEq, Prod.mk.injEq] at h
    obtain ⟨rfl, -⟩ := h
    exact ⟨rfl, Or.inl rfl⟩
  | ghErrMsg e =>
    simp only [model.Update, Option.some.injEq, Prod.mk.injEq] at h
    obtain ⟨rfl, -⟩ := h
    exact ⟨rfl, Or.inl rfl⟩
  | other id =>
    simp only [model.Update, Option.some.injEq, Prod.mk.injEq] at h
    obtain ⟨rfl, -⟩ := h
    exact ⟨rfl, Or.inl rfl⟩
  | KeyMsg k =>
    unfold model.Update at h
    by_cases hq : k = "q" ∨ k = "ctrl+c"
    · simp only [if_pos hq, Option.some.injEq, Prod.mk.injEq] at h
      obtain ⟨rfl, -⟩ := h
      exact ⟨rfl, Or.inl rfl⟩
    · by_cases he : k = "enter"
      · simp only [if_neg hq, if_pos he] at h
        have hc := choose_cursor m
        have := enter_cursor _ _ _ h
        rw [hc.1, hc.2] at this
        exact this
      · simp only [if_neg hq, if_neg he, Option.some.injEq, Prod.mk.injEq] at h
        obtain ⟨rfl, -⟩ := h
        exact ⟨rfl, Or.inl rfl⟩

/-- The part of the cursor invariant the code keeps: every message keeps the
cursor at least 0, and every message other than a fetch result keeps a cursor
that is an index of a non-empty list an index of it. -/
theorem Update_keeps_bounds (w : Widgets) (m m1 : model) (msg : Msg) (cmd : Cmd)
    (h : m.Update w msg = some (m1, cmd)) (h0 : 0 ≤ m.currentRepoIndex) :
    0 ≤ m1.currentRepoIndex ∧
    ((∀ repos, msg ≠ .ghReposFetchedMsg repos) →
      (m.repos ≠ [] → m.currentRepoIndex < (m.repos.length : Int)) →
      (m1.repos ≠ [] → m1.currentRepoIndex < (m1.repos.length : Int))) := by
  by_cases hf : ∃ repos, msg = .ghReposFetchedMsg repos
  · obtain ⟨repos, rfl⟩ := hf
    simp only [model.Update, Option.some.injEq, Prod.mk.injEq] at h
    obtain ⟨rfl, -⟩ := h
    exact ⟨h0, fun hne => absurd rfl (hne repos)⟩
  · have hmsg : ∀ repos, msg ≠ .ghReposFetchedMsg repos := fun repos he => hf ⟨repos, he⟩
    obtain ⟨hr, hc⟩ := Update_cursor w m m1 msg cmd h hmsg
    refine ⟨by omega, fun _ hinv hne => ?_⟩
    rw [hr] at hne ⊢
    have := hinv hne
    omega

/-- From the initial model the cursor never goes below 0. -/
theorem cursor_nonneg (w : Widgets) (facade : GHAPIFacade) (s : SpinnerModel) (m : model)
    (hreach : ReachableFrom w (initialModel facade s) m) : 0 ≤ m.currentRepoIndex := by
  induction hreach with
  | refl => exact le_refl _
  | step _ hup ih => exact (Update_keeps_bounds w _ _ _ _ hup ih).1

/-- C1, the code at a failing input: after the fetch of `a` and `b` the user
deletes `a` at cursor 0, the deleted message leaves the cursor at 0, and before
the re-fetch arrives the user moves the menu back and presses enter on "Next",
which moves the cursor to 1; the re-fetch then delivers `b` alone, so the list
is non-empty with the cursor at its length, and `View` panics.  The same state
arises under any widgets from a fetch of two, "Next" and a fetch of one. -/
theorem cursor_out_of_range_after_refetch :
    runMsgs arrowKeys (initialModel facadeO ⟨0⟩)
        ([.ghReposFetchedMsg [repoA, repoB]] ++ downToDelete ++
          [.KeyMsg "enter", .ghRepoDeletedMsg ""] ++ upToNext ++
          [.KeyMsg "enter", .ghReposFetchedMsg [repoB]])
      = some { initialModel facadeO ⟨0⟩ with
          choice := "Next", repos := [repoB], currentRepoIndex := 1,
          confirmMsg := "Repo deleted", loading := false } ∧
    ({ initialModel facadeO ⟨0⟩ with
          choice := "Next", repos := [repoB], currentRepoIndex := 1,
          confirmMsg := "Repo deleted", loading := false } : model).View = none ∧
    ¬ ((1 : Int) < (([repoB] : List Repo).length : Int)) ∧
    (∀ w : Widgets,
      runMsgs w (initialModel facadeO ⟨0⟩)
          [.ghReposFetchedMsg [repoA, repoB], .KeyMsg "enter", .ghReposFetchedMsg [repoA]]
        = some { initialModel facadeO ⟨0⟩ with
            choice := "Next", repos := [repoA], currentRepoIndex := 1, loading := false }) := by
  refine ⟨by decide, by decide, by decide, fun w => rfl⟩

/-- C2, the code on the empty set: in every state with no repositories, no
error, not loading and not quitting, `View` panics on the index expression,
and so does enter on each of the six mutating menu items. -/
theorem empty_set_panics (w : Widgets) (m : model)
    (hrepos : m.repos = [])
    (herr : m.err = none)
    (hloading : m.loading = false)
    (hquitting : m.quitting = false) :
    m.View = none ∧
    (∀ c ∈ mutatingChoices, m.list.SelectedItem = some c →
      m.Update w (.KeyMsg "enter") = none) := by
  have hidx : ∀ i : Int, index ([] : List Repo) i = none := by
    intro i
    simp [index]
  constructor
  · simp [model.View, herr, hloading, hquitting, hrepos, hidx]
  · intro c hc hsel
    simp only [mutatingChoices, List.mem_cons, List.mem_singleton, List.not_mem_nil,
      or_false] at hc
    rcases hc with rfl | rfl | rfl | rfl | rfl | rfl <;>
      simp [model.Update, model.choose, model.enter, hsel, hrepos, hidx]

/-- Witness of C2: the delete of the only repository followed by an empty
re-fetch reaches a state in which `View` and a further enter on "Delete"
panic. -/
theorem empty_set_panics_witness :
    runMsgs arrowKeys (initialModel facadeO ⟨0⟩)
        ([.ghReposFetchedMsg [repoA]] ++ downToDelete ++
          [.KeyMsg "enter", .ghRepoDeletedMsg "", .ghReposFetchedMsg []])
      = some afterLastDelete ∧
    afterLastDelete.View = none ∧
    afterLastDelete.Update arrowKeys (.KeyMsg "enter") = none :=
  have h := empty_set_panics arrowKeys afterLastDelete rfl rfl rfl rfl
  ⟨by decide, h.1, h.2 "Delete" (by decide) rfl⟩

end GhRepoManager
